import Mathlib

/-!
Shallow embedding of the balance and settlement engine of the
roommate-expense-tracker web application (src/js/calculate.js,
src/js/storage.js, src/js/presence.js).

Modelling conventions:
* Monetary amounts and percentages are exact rationals (`ℚ`); the
  JavaScript `parseFloat(x.toFixed(2))` rounding step is modelled by
  `round2` (round to the nearest multiple of 1/100, ties upward, which
  matches the `toFixed` tie rule "pick the larger n").
* A JavaScript object used as a dictionary (`splitDetails`, `balances`)
  is modelled as an association list `ShareMap` in key-insertion order:
  assigning to an existing key replaces its value in place, assigning to
  a fresh key appends it, exactly as JS object semantics.
* `undefined`/`null` record fields are modelled with `Option`.
* Dates (compared in JS via `new Date(...)`) are modelled as integers;
  `new Date(null)` is the epoch, i.e. `Option.getD 0` on the JS values
  that may be `null`.
* The `while` loop of `calculateSettlements` is modelled with an explicit
  fuel parameter (`sweepFuel`); `none` means the loop has not terminated
  within the given fuel.  All other translated functions are structurally
  recursive.
* Exceptions (`throw new Error(...)`) are modelled with `Except String`;
  a surrounding `try { … } catch { return d }` becomes a `match` on the
  `Except` result returning the default `d`.
-/

set_option allowUnsafeReducibility true in
attribute [semireducible] Rat.add Rat.sub Rat.mul Rat.inv

deriving instance DecidableEq for Except

/-- Round a rational to two decimal places: model of
`parseFloat(x.toFixed(2))` on an exact value. -/
def round2 (x : ℚ) : ℚ := ((round (100 * x) : ℤ) : ℚ) / 100

/-- Round a rational to one decimal place: model of
`parseFloat(x.toFixed(1))`. -/
def round1 (x : ℚ) : ℚ := ((round (10 * x) : ℤ) : ℚ) / 10

/-- A JS object mapping member ids to amounts, in key-insertion order. -/
abbrev ShareMap := List (String × ℚ)

/-- Lookup with default: `m[k] || d` (for `d = 0` the JS `|| 0` agrees,
since a present value of `0` is falsy but the default is also `0`). -/
def mapGetD : ShareMap → String → ℚ → ℚ
  | [], _, d => d
  | (k', v) :: rest, k, d => if k' = k then v else mapGetD rest k d

/-- JS object assignment `m[k] = v`: replace the value of an existing
key in place, otherwise append the new key. -/
def mapSet : ShareMap → String → ℚ → ShareMap
  | [], k, v => [(k, v)]
  | (k', v') :: rest, k, v =>
      if k' = k then (k, v) :: rest else (k', v') :: mapSet rest k v

/-- JS pattern `m[k] = (m[k] || 0) + v`. -/
def mapAdd (m : ShareMap) (k : String) (v : ℚ) : ShareMap :=
  mapSet m k (mapGetD m k 0 + v)

/-- The keys of the object, in order (`Object.keys`). -/
def mapKeys (m : ShareMap) : List String := m.map (·.1)

/-- Sum of all values of the object (`Object.values(m).reduce((a,b) => a+b, 0)`). -/
def sumValues : ShareMap → ℚ
  | [] => 0
  | (_, v) :: rest => v + sumValues rest

/-- A member record (src/js/storage.js `addMember`); only the fields the
engine reads are kept.  `avatar`/`color` are `none` when the stored
record has no truthy value for them. -/
structure Member where
  id : String
  name : String
  avatar : Option String := none
  color : Option String := none
deriving Repr, DecidableEq

/-- A stored expense record (src/js/storage.js `saveExpense`); fields
not read by the calculation engine (title, notes, timestamps) are
omitted.  `splitDetails := none` models a record without the field
(`undefined`); note that the stored default `{}` is `some []`. -/
structure Expense where
  amount : ℚ
  paidBy : String
  splitType : String := "equal"
  splitBetween : List String := []
  splitDetails : Option ShareMap := none
  category : String := "Other"
deriving Repr, DecidableEq

/-- src/js/calculate.js `calculateEqualSplit` (lines 8-30): equal split
of `amount` over `participants`, each share rounded to 2 decimals; the
input validation errors are the thrown `Error` messages. -/
def calculateEqualSplit (amount : ℚ) (participants : List String) :
    Except String ShareMap :=
  if participants = [] then Except.error "Participants array is required"
  else if amount ≤ 0 then Except.error "Valid amount is required"
  else
    let share := amount / (participants.length : ℚ)
    Except.ok (participants.foldl (fun m pid => mapSet m pid (round2 share)) [])

/-- One `expenses.forEach` iteration of `calculateBalances`
(src/js/calculate.js lines 109-133): credit the payer with the full
amount, then debit every share-map participant other than the payer
(fallback: equal split over `splitBetween` when `splitDetails` is
absent). -/
def applyExpense (balances : ShareMap) (e : Expense) : ShareMap :=
  let b1 := mapAdd balances e.paidBy e.amount
  match e.splitDetails with
  | some sd =>
      sd.foldl
        (fun b p => if p.1 ≠ e.paidBy then mapAdd b p.1 (-p.2) else b) b1
  | none =>
      if e.splitBetween.length > 0 then
        let share := e.amount / (e.splitBetween.length : ℚ)
        e.splitBetween.foldl
          (fun b pid => if pid ≠ e.paidBy then mapAdd b pid (-share) else b) b1
      else b1

/-- The `members.forEach` initialization of `calculateBalances`
(src/js/calculate.js lines 104-106): every member's balance starts
at 0. -/
def initBalances (members : List Member) : ShareMap :=
  members.foldl (fun b m => mapSet b m.id 0) []

/-- The body of `calculateBalances` before the surrounding `try/catch`
(src/js/calculate.js lines 100-140).  A `none` entry models a malformed
(null / non-object) expense record, whose field access throws. -/
def calculateBalancesTry (expenses : List (Option Expense))
    (members : List Member) : Except Unit ShareMap := do
  let final ← expenses.foldlM
    (fun b oe =>
      match oe with
      | some e => Except.ok (applyExpense b e)
      | none => Except.error ()) (initBalances members)
  pure (final.map (fun p => (p.1, round2 p.2)))

/-- src/js/calculate.js `calculateBalances` (lines 99-145): the
`catch` branch returns the empty object `{}`. -/
def calculateBalances (expenses : List (Option Expense))
    (members : List Member) : ShareMap :=
  match calculateBalancesTry expenses members with
  | Except.ok m => m
  | Except.error _ => []

/-- One side of the two-pointer sweep: the objects pushed onto
`creditors` / `debtors` in src/js/calculate.js lines 158-172 (`amount`
is the balance for creditors and its negation for debtors). -/
structure Entry where
  id : String
  name : String
  avatar : String
  color : String
  amount : ℚ
deriving Repr, DecidableEq

/-- A settlement instruction as pushed in src/js/calculate.js lines
189-199. -/
structure Instr where
  fromId : String
  fromName : String
  fromAvatar : String
  fromColor : String
  toId : String
  toName : String
  toAvatar : String
  toColor : String
  amount : ℚ
deriving Repr, DecidableEq

/-- Build a creditor/debtor entry from a member and a (positive)
amount, applying the JS defaults `member.avatar || member.name.charAt(0)`
and `member.color || '#3B82F6'`. -/
def mkEntry (m : Member) (a : ℚ) : Entry :=
  { id := m.id, name := m.name,
    avatar := m.avatar.getD (m.name.take 1),
    color := m.color.getD "#3B82F6",
    amount := a }

/-- The instruction emitted for debtor `d` paying creditor `c`. -/
def mkInstr (d c : Entry) (a : ℚ) : Instr :=
  { fromId := d.id, fromName := d.name, fromAvatar := d.avatar,
    fromColor := d.color,
    toId := c.id, toName := c.name, toAvatar := c.avatar,
    toColor := c.color, amount := a }

/-- Insert `a` in front of the first element `b` satisfying `le a b`;
building block of the stable insertion sort below. -/
def orderedInsertB {α : Type} (le : α → α → Bool) (a : α) :
    List α → List α
  | [] => [a]
  | b :: l => if le a b then a :: b :: l else b :: orderedInsertB le a l

/-- Stable insertion sort; with a non-strict `le` this is extensionally
the ES2019 stable `Array.prototype.sort` for the corresponding
comparator (equal elements keep their original relative order). -/
def insertionSortB {α : Type} (le : α → α → Bool) : List α → List α
  | [] => []
  | a :: l => orderedInsertB le a (insertionSortB le l)

/-- Descending-by-amount stable sort of src/js/calculate.js lines
177-178. -/
def sortByAmountDesc (l : List Entry) : List Entry :=
  insertionSortB (fun a b => decide (b.amount ≤ a.amount)) l

/-- The greedy two-pointer `while` loop of `calculateSettlements`
(src/js/calculate.js lines 181-207), with explicit fuel.  The advancing
index pointers are modelled by consuming the lists; `none` means the
loop did not terminate within `fuel` iterations.  Note the exact
thresholds of the source: an instruction is emitted (and the remainders
decremented) only when `settleAmount > 0.01`, while a pointer advances
only when the (possibly decremented) remainder is `< 0.01`. -/
def sweepFuel : ℕ → List Entry → List Entry → Option (List Instr)
  | _, [], _ => some []
  | _, _ :: _, [] => some []
  | 0, _ :: _, _ :: _ => none
  | fuel + 1, c :: cs, d :: ds =>
      let settle := min c.amount d.amount
      if settle > 1/100 then
        let cA := c.amount - settle
        let dA := d.amount - settle
        let cs' := if cA < 1/100 then cs else { c with amount := cA } :: cs
        let ds' := if dA < 1/100 then ds else { d with amount := dA } :: ds
        (sweepFuel fuel cs' ds').map
          (fun rest => mkInstr d c (round2 settle) :: rest)
      else
        let cs' := if c.amount < 1/100 then cs else c :: cs
        let ds' := if d.amount < 1/100 then ds else d :: ds
        sweepFuel fuel cs' ds'

/-- The `creditors` array built by the `members.forEach` partition of
`calculateSettlements` (src/js/calculate.js lines 155-174): members
with balance `> 0.01`, in member order. -/
def creditorsOf (balances : ShareMap) (members : List Member) : List Entry :=
  members.filterMap (fun m =>
    let balance := mapGetD balances m.id 0
    if balance > 1/100 then some (mkEntry m balance) else none)

/-- The `debtors` array of the same loop (balance `< -0.01`, amount
stored as the positive `-balance`). -/
def debtorsOf (balances : ShareMap) (members : List Member) : List Entry :=
  members.filterMap (fun m =>
    let balance := mapGetD balances m.id 0
    if balance < -(1/100) then some (mkEntry m (-balance)) else none)

/-- src/js/calculate.js `calculateSettlements` (lines 148-214) with
explicit fuel for the `while` loop: partition members into creditors
(balance `> 0.01`) and debtors (balance `< -0.01`), sort both
descending by amount, then run the greedy sweep.  The body cannot throw
on these inputs, so the surrounding `try/catch` is the identity. -/
def calculateSettlementsFuel (fuel : ℕ) (balances : ShareMap)
    (members : List Member) : Option (List Instr) :=
  sweepFuel fuel (sortByAmountDesc (creditorsOf balances members))
    (sortByAmountDesc (debtorsOf balances members))

/-- The three members of the spec's Scenario 1. -/
def membersABC : List Member :=
  [{ id := "Alice", name := "Alice" },
   { id := "Bob", name := "Bob" },
   { id := "Carol", name := "Carol" }]

/-- Scenario 1's stored expense: 90 paid by Alice, split equally, with
the resolved share map produced by the equal split. -/
def expense90 : Expense :=
  { amount := 90, paidBy := "Alice",
    splitType := "equal",
    splitBetween := ["Alice", "Bob", "Carol"],
    splitDetails := some [("Alice", 30), ("Bob", 30), ("Carol", 30)] }

/-- One element of the `trends` array built by `calculateTrends`
(src/js/calculate.js lines 376-382); `monthName` is presentation-only
decoration and is omitted.  `total` and `average` are the rounded
values stored in the object; `growth` is `none` until (unless) the
growth pass assigns it. -/
structure Trend where
  month : String
  total : ℚ
  count : ℕ
  average : ℚ
  growth : Option ℚ := none
deriving Repr, DecidableEq

/-- Byte-wise lexicographic comparison of strings (as code-point
lists); model of `a.month.localeCompare(b.month) ≤ 0` for the ASCII
`YYYY-MM` month keys used by the program. -/
def strLeB : List Char → List Char → Bool
  | [], _ => true
  | _ :: _, [] => false
  | a :: as, b :: bs =>
      if a.val < b.val then true
      else if b.val < a.val then false
      else strLeB as bs

/-- The month-over-month growth value assigned by the loop in
src/js/calculate.js lines 389-399: previous total positive → rounded
percentage formula; otherwise 100 if the current total is positive,
else 0. -/
def growthVal (prevTotal curTotal : ℚ) : ℚ :=
  if prevTotal > 0 then round1 ((curTotal - prevTotal) / prevTotal * 100)
  else if curTotal > 0 then 100 else 0

/-- The growth-assignment `for` loop (`for (let i = 1; …)`): each trend
after the first gets `growth` computed from the previous trend's
(unchanged) `total`. -/
def addGrowth : Trend → List Trend → List Trend
  | _, [] => []
  | prev, t :: rest =>
      let t' := { t with growth := some (growthVal prev.total t.total) }
      t' :: addGrowth t' rest

/-- Run the growth pass over the sorted trend list (the first element
keeps `growth := none`, exactly as the JS loop starts at `i = 1`). -/
def withGrowth : List Trend → List Trend
  | [] => []
  | t :: rest => t :: addGrowth t rest

/-- src/js/calculate.js `calculateTrends` (lines 363-406): per month
bucket compute total (rounded), count and average, sort by month key,
then assign month-over-month growth.  The input is `Object.entries` of
`expensesByMonth` in key-insertion order. -/
def calculateTrends (expensesByMonth : List (String × List Expense)) :
    List Trend :=
  let base := expensesByMonth.map (fun me =>
    let total := (me.2.map (·.amount)).sum
    { month := me.1,
      total := round2 total,
      count := me.2.length,
      average := if me.2.length > 0 then round2 (total / (me.2.length : ℚ))
                 else 0,
      growth := none : Trend })
  let sorted := insertionSortB (fun a b => strLeB a.month.data b.month.data) base
  withGrowth sorted

/-- A stored absence record (src/js/storage.js `savePresenceRecord`);
timestamps omitted.  `endDate` is `none` when the stored record lacks
the field (possible for imported data; `savePresenceRecord` itself
always stores one). -/
structure AbsenceRecord where
  id : String
  memberId : String
  startDate : ℤ
  endDate : Option ℤ := none
  reason : String := ""
deriving Repr, DecidableEq

/-- src/js/presence.js `getAbsentMembers` (lines 137-162): the members
having some absence record with `startDate ≤ date ≤ endDate`
(`endDate` falling back to `startDate` when absent). -/
def getAbsentMembers (members : List Member)
    (absenceRecords : List AbsenceRecord) (date : ℤ) : List Member :=
  members.filter (fun member =>
    absenceRecords.any (fun record =>
      record.memberId == member.id &&
      decide (record.startDate ≤ date) &&
      decide (date ≤ record.endDate.getD record.startDate)))

/-- The in-memory expense object handed to `processAbsentMembers`
(src/js/calculate.js lines 815-895) before it is stored; every field
the function touches, with `Option` for possibly-missing ones. -/
structure ExpenseData where
  amount : ℚ
  date : Option ℤ := none
  paidBy : Option String := none
  splitType : Option String := none
  splitBetween : Option (List String) := none
  splitDetails : Option ShareMap := none
deriving Repr, DecidableEq

/-- The participant-filtering step of `processAbsentMembers`
(src/js/calculate.js lines 832-842): the original participants minus
the absent ids; if everyone was filtered out and a payer is set, the
payer alone becomes the participant list. -/
def presentAfterFilter (members : List Member)
    (records : List AbsenceRecord) (d : ℤ) (paidBy : Option String)
    (parts : List String) : List String :=
  let absentMemberIds := (getAbsentMembers members records d).map (·.id)
  let filtered := parts.filter
    (fun memberId => !(absentMemberIds.contains memberId))
  if filtered.length = 0 then
    match paidBy with
    | some p => [p]
    | none => filtered
  else filtered

/-- src/js/calculate.js `processAbsentMembers` (lines 815-895): filter
absent members out of `splitBetween` (via `presentAfterFilter`), then
re-derive `splitDetails`: full recompute for `equal`,
delete-plus-shortfall-redistribution for `custom`/`percentage`.  The
presence module's member and record sets are passed explicitly. -/
def processAbsentMembers (members : List Member)
    (absenceRecords : List AbsenceRecord) (e : ExpenseData) : ExpenseData :=
  match e.date with
  | none => e
  | some expenseDate =>
    let absentMemberIds :=
      (getAbsentMembers members absenceRecords expenseDate).map (·.id)
    match e.splitBetween with
    | none => e
    | some originalParticipants =>
      let presentParticipants := presentAfterFilter members absenceRecords
        expenseDate e.paidBy originalParticipants
      let e1 := { e with splitBetween := some presentParticipants }
      if e1.splitType = some "equal" then
        let participantCount := presentParticipants.length
        let share := if participantCount > 0
                     then e1.amount / (participantCount : ℚ) else 0
        let sdNew := presentParticipants.foldl
          (fun m memberId => mapSet m memberId share) []
        { e1 with splitDetails := some sdNew }
      else
        match e1.splitDetails with
        | none => e1
        | some sd0 =>
          let sd := sd0.filter (fun p => !(absentMemberIds.contains p.1))
          if e1.splitType = some "custom" then
            let remainingAmount := (sd.map (·.2)).sum
            let difference := e1.amount - remainingAmount
            if |difference| > 1/100 ∧ presentParticipants.length > 0 then
              let adjustment := difference / (presentParticipants.length : ℚ)
              let sdNew := presentParticipants.foldl
                (fun m memberId =>
                  mapSet m memberId (mapGetD m memberId 0 + adjustment)) sd
              { e1 with splitDetails := some sdNew }
            else { e1 with splitDetails := some sd }
          else if e1.splitType = some "percentage" then
            let remainingPercentage := (sd.map (·.2)).sum
            let difference := 100 - remainingPercentage
            if |difference| > 1/10 ∧ presentParticipants.length > 0 then
              let adjustment := difference / (presentParticipants.length : ℚ)
              let sdNew := presentParticipants.foldl
                (fun m memberId =>
                  mapSet m memberId (mapGetD m memberId 0 + adjustment)) sd
              { e1 with splitDetails := some sdNew }
            else { e1 with splitDetails := some sd }
          else { e1 with splitDetails := some sd }

/-- The persisted store (the localStorage keys read and written by
`deleteMember`): members, expenses grouped by month key, absence
records. -/
structure Store where
  members : List Member
  expenses : List (String × List Expense)
  presence : List AbsenceRecord
deriving Repr, DecidableEq

/-- src/js/storage.js `deleteMember` (lines 116-150): fail if any
expense references the member as payer or participant; otherwise remove
the member and, in the same operation, every absence record of that
member. -/
def deleteMember (s : Store) (memberId : String) : Except String Store :=
  let hasExpenses := s.expenses.any (fun monthExpenses =>
    monthExpenses.2.any (fun expense =>
      expense.paidBy == memberId || expense.splitBetween.contains memberId))
  if hasExpenses then
    Except.error "Cannot delete member with existing expenses"
  else
    Except.ok { s with
      members := s.members.filter (fun m => !(m.id == memberId)),
      presence := s.presence.filter (fun r => !(r.memberId == memberId)) }

/-- The record argument of `savePresenceRecord` (absence data from the
UI or an update): `id` is absent for a new record. -/
structure PresenceInput where
  id : Option String := none
  memberId : String
  startDate : ℤ
  endDate : Option ℤ := none
  reason : String := ""
deriving Repr, DecidableEq

/-- src/js/storage.js `savePresenceRecord` (lines 302-340): build the
normalized record (`endDate || startDate`; a fresh id when none is
given), reject when it overlaps any stored record of the same member —
including the stored record with the same id — else update-or-append.
`new Date(null)` is the epoch, hence `Option.getD 0` on a stored
`endDate` of `null`. -/
def savePresenceRecord (freshId : String) (records : List AbsenceRecord)
    (record : PresenceInput) : Except String (List AbsenceRecord) :=
  let newRecord : AbsenceRecord :=
    { id := record.id.getD freshId,
      memberId := record.memberId,
      startDate := record.startDate,
      endDate := some (record.endDate.getD record.startDate),
      reason := record.reason }
  let overlapping := records.filter (fun r =>
    r.memberId == newRecord.memberId &&
    !(decide (newRecord.endDate.getD 0 < r.startDate) ||
      decide (newRecord.startDate > r.endDate.getD 0)))
  if overlapping.length > 0 then
    Except.error "Overlapping absence records found"
  else
    match records.findIdx? (fun r => r.id == newRecord.id) with
    | some i => Except.ok (records.set i newRecord)
    | none => Except.ok (records ++ [newRecord])

/-! ### General lemmas about the association-list object model -/

theorem mapGetD_nil (k : String) (d : ℚ) : mapGetD [] k d = d := rfl

theorem sumValues_mapSet (m : ShareMap) (k : String) (v : ℚ) :
    sumValues (mapSet m k v) = sumValues m - mapGetD m k 0 + v := by
  induction m with
  | nil => simp [mapSet, sumValues, mapGetD]
  | cons p rest ih =>
    obtain ⟨k', v'⟩ := p
    by_cases h : k' = k
    · simp [mapSet, sumValues, mapGetD, h]
      ring
    · simp [mapSet, sumValues, mapGetD, h, ih]
      ring

theorem sumValues_mapAdd (m : ShareMap) (k : String) (v : ℚ) :
    sumValues (mapAdd m k v) = sumValues m + v := by
  simp [mapAdd, sumValues_mapSet]
  ring

theorem mem_mapSet (m : ShareMap) (k : String) (v : ℚ) (p : String × ℚ)
    (hp : p ∈ mapSet m k v) : p ∈ m ∨ p = (k, v) := by
  induction m with
  | nil => simpa [mapSet] using hp
  | cons q rest ih =>
    obtain ⟨k', v'⟩ := q
    by_cases h : k' = k
    · simp [mapSet, h] at hp
      rcases hp with h1 | h1
      · right; simp [h1]
      · left; simp [h1]
    · simp [mapSet, h] at hp
      rcases hp with h1 | h1
      · left; simp [h1]
      · rcases ih h1 with h2 | h2
        · left; simp [h2]
        · right; exact h2

theorem mapKeys_mapSet (m : ShareMap) (k : String) (v : ℚ) :
    mapKeys (mapSet m k v) =
      if k ∈ mapKeys m then mapKeys m else mapKeys m ++ [k] := by
  induction m with
  | nil => simp [mapSet, mapKeys]
  | cons p rest ih =>
    obtain ⟨k', v'⟩ := p
    simp only [mapKeys, List.map_cons] at ih ⊢
    by_cases h : k' = k
    · subst h
      simp [mapSet]
    · by_cases h2 : k ∈ rest.map (fun x => x.1)
      · simp [mapSet, h, h2, Ne.symm h, ih]
      · simp [mapSet, h, h2, Ne.symm h, ih]

theorem mapKeys_nodup_mapSet (m : ShareMap) (k : String) (v : ℚ)
    (h : (mapKeys m).Nodup) : (mapKeys (mapSet m k v)).Nodup := by
  rw [mapKeys_mapSet]
  by_cases hk : k ∈ mapKeys m
  · simpa [hk] using h
  · simp [hk]
    exact List.Nodup.append h (List.nodup_singleton k) (by simpa using hk)

theorem mem_mapKeys_mapSet (m : ShareMap) (k : String) (v : ℚ) (x : String)
    (hx : x ∈ mapKeys (mapSet m k v)) : x ∈ mapKeys m ∨ x = k := by
  rw [mapKeys_mapSet] at hx
  by_cases hk : k ∈ mapKeys m
  · simp [hk] at hx
    exact Or.inl hx
  · simp [hk] at hx
    exact hx

/-! ### Rounding lemmas -/

theorem round2_sub_abs (x : ℚ) : |round2 x - x| ≤ 1/200 := by
  have h : |100 * x - (round (100 * x) : ℚ)| ≤ 1/2 := abs_sub_round (100 * x)
  have h2 : round2 x - x = -((100 * x - (round (100 * x) : ℚ)) / 100) := by
    simp [round2]
    ring
  rw [h2, abs_neg, abs_div]
  rw [show |(100 : ℚ)| = 100 by norm_num]
  linarith

/-- A rational is an exact multiple of 1/100 (a whole number of
cents). -/
def centQ (q : ℚ) : Prop := ∃ n : ℤ, q = (n : ℚ) / 100

theorem round2_eq_self (q : ℚ) (h : centQ q) : round2 q = q := by
  obtain ⟨n, rfl⟩ := h
  have : (100 : ℚ) * ((n : ℚ) / 100) = (n : ℚ) := by ring
  simp [round2, this]

theorem centQ_min (a b : ℚ) (ha : centQ a) (hb : centQ b) : centQ (min a b) := by
  rcases le_total a b with h | h
  · rwa [min_eq_left h]
  · rwa [min_eq_right h]

theorem centQ_sub (a b : ℚ) (ha : centQ a) (hb : centQ b) : centQ (a - b) := by
  obtain ⟨n, rfl⟩ := ha
  obtain ⟨m, rfl⟩ := hb
  exact ⟨n - m, by push_cast; ring⟩

theorem centQ_pos_ge (q : ℚ) (hc : centQ q) (hq : 0 < q) : 1/100 ≤ q := by
  obtain ⟨n, rfl⟩ := hc
  rw [lt_div_iff (by norm_num : (0:ℚ) < 100)] at hq
  have hn1 : (1 : ℤ) ≤ n := by exact_mod_cast (by linarith : (0:ℚ) < (n : ℚ))
  have h2 : (1 : ℚ) ≤ (n : ℚ) := by exact_mod_cast hn1
  rw [le_div_iff (by norm_num : (0:ℚ) < 100)]
  linarith

/-! ### Balance-sum lemmas (claim C1) -/

/-- The sum of the non-payer values of a share map: exactly the amount
`calculateBalances` debits for one expense. -/
def sumExcept (payer : String) : ShareMap → ℚ
  | [] => 0
  | p :: rest => (if p.1 ≠ payer then p.2 else 0) + sumExcept payer rest

/-- The payer's own entry of the resolved share map (0 when absent).
`calculateBalances` never debits this value. -/
def payerShare (e : Expense) : ℚ :=
  match e.splitDetails with
  | some sd => mapGetD sd e.paidBy 0
  | none => 0

/-- A stored expense whose resolved share map exists, sums exactly to
the amount, has no duplicate keys, and references only known member
ids. -/
def WellFormedSplit (ids : List String) (e : Expense) : Prop :=
  e.paidBy ∈ ids ∧
  ∃ sd, e.splitDetails = some sd ∧ sumValues sd = e.amount ∧
    (mapKeys sd).Nodup ∧ ∀ k ∈ mapKeys sd, k ∈ ids

theorem mem_mapKeys_cons (p : String × ℚ) (rest : ShareMap) (k : String) :
    k ∈ mapKeys (p :: rest) ↔ k = p.1 ∨ k ∈ mapKeys rest := by
  simp [mapKeys]

theorem sumExcept_of_not_mem (payer : String) (sd : ShareMap)
    (h : payer ∉ mapKeys sd) : sumExcept payer sd = sumValues sd := by
  induction sd with
  | nil => rfl
  | cons p rest ih =>
    rw [mem_mapKeys_cons] at h
    push_neg at h
    obtain ⟨p1, p2⟩ := p
    simp only [sumExcept, sumValues]
    rw [if_pos (by simpa using Ne.symm h.1), ih h.2]

theorem mapGetD_of_not_mem (sd : ShareMap) (k : String) (d : ℚ)
    (h : k ∉ mapKeys sd) : mapGetD sd k d = d := by
  induction sd with
  | nil => rfl
  | cons p rest ih =>
    rw [mem_mapKeys_cons] at h
    push_neg at h
    obtain ⟨p1, p2⟩ := p
    simp only [mapGetD]
    rw [if_neg (by simpa using Ne.symm h.1), ih h.2]

theorem sumExcept_eq (payer : String) (sd : ShareMap)
    (h : (mapKeys sd).Nodup) :
    sumExcept payer sd = sumValues sd - mapGetD sd payer 0 := by
  induction sd with
  | nil => simp [sumExcept, sumValues, mapGetD]
  | cons p rest ih =>
    obtain ⟨k, v⟩ := p
    rw [show mapKeys ((k, v) :: rest) = k :: mapKeys rest from rfl,
      List.nodup_cons] at h
    by_cases hk : k = payer
    · subst hk
      rw [show sumExcept k ((k, v) :: rest) = 0 + sumExcept k rest by
        simp [sumExcept]]
      rw [sumExcept_of_not_mem k rest h.1]
      simp [sumValues, mapGetD]
    · simp [sumExcept, sumValues, mapGetD, hk, ih h.2]
      ring

theorem foldl_debit_sum (payer : String) (sd : ShareMap) :
    ∀ b : ShareMap,
      sumValues (sd.foldl
        (fun b p => if p.1 ≠ payer then mapAdd b p.1 (-p.2) else b) b) =
      sumValues b - sumExcept payer sd := by
  induction sd with
  | nil => intro b; simp [sumExcept]
  | cons p rest ih =>
    intro b
    by_cases hp : p.1 ≠ payer
    · simp only [List.foldl_cons, if_pos hp, ih, sumValues_mapAdd, sumExcept,
        hp, if_pos]
      ring
    · simp only [List.foldl_cons, if_neg hp, ih, sumExcept]
      ring

theorem sum_applyExpense (b : ShareMap) (e : Expense) (sd : ShareMap)
    (hsd : e.splitDetails = some sd) (hsum : sumValues sd = e.amount)
    (hnd : (mapKeys sd).Nodup) :
    sumValues (applyExpense b e) = sumValues b + payerShare e := by
  simp only [applyExpense, hsd]
  rw [foldl_debit_sum, sumValues_mapAdd, sumExcept_eq _ _ hnd, hsum,
    payerShare, hsd]
  ring

theorem initBalances_all_zero (members : List Member) :
    ∀ p ∈ initBalances members, p.2 = 0 := by
  have key : ∀ (ms : List Member) (b : ShareMap), (∀ p ∈ b, p.2 = 0) →
      ∀ p ∈ ms.foldl (fun b m => mapSet b m.id 0) b, p.2 = 0 := by
    intro ms
    induction ms with
    | nil => intro b hb; simpa using hb
    | cons m rest ih =>
      intro b hb
      simp only [List.foldl_cons]
      apply ih
      intro p hp
      rcases mem_mapSet b m.id 0 p hp with h | h
      · exact hb p h
      · simp [h]
  exact key members [] (by simp)

theorem sumValues_all_zero (m : ShareMap) (h : ∀ p ∈ m, p.2 = 0) :
    sumValues m = 0 := by
  induction m with
  | nil => rfl
  | cons p rest ih =>
    simp only [sumValues]
    rw [h p (by simp), ih (fun q hq => h q (by simp [hq]))]
    ring

theorem sumValues_initBalances (members : List Member) :
    sumValues (initBalances members) = 0 :=
  sumValues_all_zero _ (initBalances_all_zero members)

theorem foldl_expenses_sum (es : List Expense)
    (hwf : ∀ e ∈ es, ∃ sd, e.splitDetails = some sd ∧
      sumValues sd = e.amount ∧ (mapKeys sd).Nodup) :
    ∀ b : ShareMap,
      sumValues (es.foldl applyExpense b) =
        sumValues b + (es.map payerShare).sum := by
  induction es with
  | nil => intro b; simp
  | cons e rest ih =>
    intro b
    obtain ⟨sd, hsd, hsum, hnd⟩ := hwf e (by simp)
    simp only [List.foldl_cons, List.map_cons, List.sum_cons]
    rw [ih (fun e' he' => hwf e' (by simp [he'])),
      sum_applyExpense b e sd hsd hsum hnd]
    ring

theorem calculateBalances_map_some (es : List Expense) (members : List Member) :
    calculateBalances (es.map some) members =
      (es.foldl applyExpense (initBalances members)).map
        (fun p => (p.1, round2 p.2)) := by
  have key : ∀ (es : List Expense) (b : ShareMap),
      (es.map some).foldlM
        (fun b oe =>
          match oe with
          | some e => Except.ok (applyExpense b e)
          | none => (Except.error () : Except Unit ShareMap)) b =
        Except.ok (es.foldl applyExpense b) := by
    intro es
    induction es with
    | nil => intro b; rfl
    | cons e rest ih =>
      intro b
      simp only [List.map_cons, List.foldlM_cons, List.foldl_cons]
      rw [show ((Except.ok (applyExpense b e) : Except Unit ShareMap) >>=
        fun b => (rest.map some).foldlM (fun b oe =>
          match oe with
          | some e => Except.ok (applyExpense b e)
          | none => (Except.error () : Except Unit ShareMap)) b) =
        (rest.map some).foldlM (fun b oe =>
          match oe with
          | some e => Except.ok (applyExpense b e)
          | none => (Except.error () : Except Unit ShareMap))
          (applyExpense b e) from rfl]
      exact ih (applyExpense b e)
  simp only [calculateBalances, calculateBalancesTry, bind, Except.bind, key,
    pure, Except.pure]

/-- Invariant of the balance object while folding: its keys are
duplicate-free and drawn from the known member ids. -/
def goodKeys (ids : List String) (m : ShareMap) : Prop :=
  (mapKeys m).Nodup ∧ ∀ k ∈ mapKeys m, k ∈ ids

theorem goodKeys_mapSet (ids : List String) (m : ShareMap) (k : String)
    (v : ℚ) (h : goodKeys ids m) (hk : k ∈ ids) :
    goodKeys ids (mapSet m k v) := by
  refine ⟨mapKeys_nodup_mapSet m k v h.1, ?_⟩
  intro x hx
  rcases mem_mapKeys_mapSet m k v x hx with h1 | h1
  · exact h.2 x h1
  · subst h1; exact hk

theorem goodKeys_foldl_debit (ids : List String) (payer : String)
    (sd : ShareMap) (hsd : ∀ k ∈ mapKeys sd, k ∈ ids) :
    ∀ b : ShareMap, goodKeys ids b →
      goodKeys ids (sd.foldl
        (fun b p => if p.1 ≠ payer then mapAdd b p.1 (-p.2) else b) b) := by
  induction sd with
  | nil => intro b hb; simpa using hb
  | cons p rest ih =>
    intro b hb
    simp only [List.foldl_cons]
    have hrest : ∀ k ∈ mapKeys rest, k ∈ ids := by
      intro k hk
      exact hsd k (by rw [mem_mapKeys_cons]; exact Or.inr hk)
    by_cases hp : p.1 ≠ payer
    · rw [if_pos hp]
      exact ih hrest _ (goodKeys_mapSet ids b p.1 _ hb
        (hsd p.1 (by rw [mem_mapKeys_cons]; exact Or.inl rfl)))
    · rw [if_neg hp]
      exact ih hrest b hb

theorem goodKeys_applyExpense (ids : List String) (b : ShareMap)
    (e : Expense) (sd : ShareMap) (hsd : e.splitDetails = some sd)
    (hkeys : ∀ k ∈ mapKeys sd, k ∈ ids) (hp : e.paidBy ∈ ids)
    (hb : goodKeys ids b) : goodKeys ids (applyExpense b e) := by
  simp only [applyExpense, hsd]
  exact goodKeys_foldl_debit ids e.paidBy sd hkeys _
    (goodKeys_mapSet ids b e.paidBy _ hb hp)

theorem goodKeys_initBalances (members : List Member) :
    goodKeys (members.map (·.id)) (initBalances members) := by
  have key : ∀ (ms : List Member) (ids : List String) (b : ShareMap),
      goodKeys ids b → (∀ m ∈ ms, m.id ∈ ids) →
      goodKeys ids (ms.foldl (fun b m => mapSet b m.id 0) b) := by
    intro ms
    induction ms with
    | nil => intro ids b hb _; simpa using hb
    | cons m rest ih =>
      intro ids b hb hms
      simp only [List.foldl_cons]
      exact ih ids _ (goodKeys_mapSet ids b m.id 0 hb (hms m (by simp)))
        (fun m' hm' => hms m' (by simp [hm']))
  exact key members _ [] ⟨by simp [mapKeys], by simp [mapKeys]⟩
    (fun m hm => List.mem_map_of_mem _ hm)

theorem goodKeys_length_le (ids : List String) (m : ShareMap)
    (h : goodKeys ids m) : m.length ≤ ids.length := by
  have h1 : (mapKeys m).Subperm ids := List.Nodup.subperm h.1 h.2
  have h2 := h1.length_le
  simpa [mapKeys] using h2

theorem sumValues_map_round2 (m : ShareMap) :
    |sumValues (m.map (fun p => (p.1, round2 p.2))) - sumValues m| ≤
      (m.length : ℚ) / 200 := by
  induction m with
  | nil => simp [sumValues]
  | cons p rest ih =>
    simp only [List.map_cons, sumValues, List.length_cons]
    have h1 := round2_sub_abs p.2
    calc |round2 p.2 + sumValues (rest.map (fun p => (p.1, round2 p.2))) -
          (p.2 + sumValues rest)|
        = |(round2 p.2 - p.2) +
            (sumValues (rest.map (fun p => (p.1, round2 p.2))) -
              sumValues rest)| := by ring_nf
      _ ≤ |round2 p.2 - p.2| +
            |sumValues (rest.map (fun p => (p.1, round2 p.2))) -
              sumValues rest| := abs_add _ _
      _ ≤ 1/200 + (rest.length : ℚ) / 200 := by linarith
      _ = (((rest.length + 1 : ℕ)) : ℚ) / 200 := by push_cast; ring

theorem goodKeys_foldl_expenses (ids : List String) (es : List Expense)
    (hwf : ∀ e ∈ es, WellFormedSplit ids e) :
    ∀ b : ShareMap, goodKeys ids b →
      goodKeys ids (es.foldl applyExpense b) := by
  induction es with
  | nil => intro b hb; simpa using hb
  | cons e rest ih =>
    intro b hb
    obtain ⟨hpay, sd, hsd, _, _, hkeys⟩ := hwf e (by simp)
    simp only [List.foldl_cons]
    exact ih (fun e' he' => hwf e' (by simp [he'])) _
      (goodKeys_applyExpense ids b e sd hsd hkeys hpay hb)

/-- Claim C1 (counterexample): for the single Scenario-1 expense (90
paid by Alice, resolved equal shares 30/30/30 including the payer's own
share) over members Alice, Bob, Carol, the balance map returned by
`calculateBalances` sums to 30, far outside the claimed tolerance of
0.01 per member — the payer's own share is never subtracted, so the
claimed conservation law fails. -/
theorem claim_C1_counterexample :
    sumValues (calculateBalances [some expense90] membersABC) = 30 ∧
    ¬(|sumValues (calculateBalances [some expense90] membersABC)| ≤
        (membersABC.length : ℚ) * (1/100)) := by decide

/-- Claim C1 (amended): for every list of expenses whose resolved share
maps are well-formed (present, duplicate-free keys drawn from the
member list, values summing exactly to the amount), the balance map
returned by `calculateBalances` sums to the total of the payers' own
shares, within 0.01 per member (so it sums to ≈ 0 exactly when every
payer is assigned a zero share). -/
theorem claim_C1_amended (expenses : List Expense) (members : List Member)
    (hwf : ∀ e ∈ expenses, WellFormedSplit (members.map (·.id)) e) :
    |sumValues (calculateBalances (expenses.map some) members) -
      (expenses.map payerShare).sum| ≤ (members.length : ℚ) / 100 := by
  rw [calculateBalances_map_some]
  have hsum : sumValues (expenses.foldl applyExpense (initBalances members)) =
      (expenses.map payerShare).sum := by
    rw [foldl_expenses_sum expenses
      (fun e he => (hwf e he).2.imp (fun sd h => ⟨h.1, h.2.1, h.2.2.1⟩)),
      sumValues_initBalances]
    ring
  have hgood : goodKeys (members.map (·.id))
      (expenses.foldl applyExpense (initBalances members)) :=
    goodKeys_foldl_expenses _ expenses hwf _ (goodKeys_initBalances members)
  have hlen : ((expenses.foldl applyExpense (initBalances members)).length : ℚ) ≤
      (members.length : ℚ) := by
    have h := goodKeys_length_le _ _ hgood
    simp only [List.length_map] at h
    exact_mod_cast h
  have hround := sumValues_map_round2
    (expenses.foldl applyExpense (initBalances members))
  rw [← hsum]
  calc |sumValues ((expenses.foldl applyExpense (initBalances members)).map
          (fun p => (p.1, round2 p.2))) -
        sumValues (expenses.foldl applyExpense (initBalances members))|
      ≤ ((expenses.foldl applyExpense (initBalances members)).length : ℚ) / 200 :=
        hround
    _ ≤ (members.length : ℚ) / 200 := by linarith
    _ ≤ (members.length : ℚ) / 100 := by
        have : (0 : ℚ) ≤ (members.length : ℚ) := by positivity
        linarith

/-- An expense like Scenario 1's but whose share map assigns the payer
a zero share (Alice 0, Bob 45, Carol 45, summing to the amount 90). -/
def expense90z : Expense :=
  { amount := 90, paidBy := "Alice",
    splitType := "custom",
    splitBetween := ["Alice", "Bob", "Carol"],
    splitDetails := some [("Alice", 0), ("Bob", 45), ("Carol", 45)] }

/-- Witness for the amended claim C1 at a concrete input. -/
theorem claim_C1_witness :
    |sumValues (calculateBalances ([expense90z].map some) membersABC) -
      ([expense90z].map payerShare).sum| ≤ ((membersABC.length : ℕ) : ℚ) / 100 := by
  apply claim_C1_amended
  intro e he
  rw [List.mem_singleton] at he
  subst he
  exact ⟨by decide, [("Alice", 0), ("Bob", 45), ("Carol", 45)], rfl,
    by decide, by decide, by decide⟩

/-- The settlement instruction Bob → Alice 30 with the JS default
avatar (first character of the name) and color. -/
def instrBobToAlice : Instr :=
  { fromId := "Bob", fromName := "Bob", fromAvatar := "B",
    fromColor := "#3B82F6",
    toId := "Alice", toName := "Alice", toAvatar := "A",
    toColor := "#3B82F6", amount := 30 }

/-- The settlement instruction Carol → Alice 30. -/
def instrCarolToAlice : Instr :=
  { fromId := "Carol", fromName := "Carol", fromAvatar := "C",
    fromColor := "#3B82F6",
    toId := "Alice", toName := "Alice", toAvatar := "A",
    toColor := "#3B82F6", amount := 30 }

/-- Claim C2 (counterexample): in Scenario 1 `calculateBalances` gives
Alice +90, not the claimed +60 (her own 30 share is never
subtracted). -/
theorem claim_C2_counterexample :
    mapGetD (calculateBalances [some expense90] membersABC) "Alice" 0 = 90 ∧
    ((90 : ℚ) = 60 → False) := by decide

/-- Claim C2 (amended): for Scenario 1 (members Alice, Bob, Carol; one
expense of 90 paid by Alice, equal split) the resolved share map is
Alice 30 / Bob 30 / Carol 30, `calculateBalances` returns Alice +90,
Bob −30, Carol −30, and the settlement planner (which terminates here
within fuel 4) emits exactly Bob → Alice 30 followed by
Carol → Alice 30. -/
theorem claim_C2_amended :
    calculateEqualSplit 90 ["Alice", "Bob", "Carol"] =
      Except.ok [("Alice", 30), ("Bob", 30), ("Carol", 30)] ∧
    calculateBalances [some expense90] membersABC =
      [("Alice", 90), ("Bob", -30), ("Carol", -30)] ∧
    calculateSettlementsFuel 4 (calculateBalances [some expense90] membersABC)
        membersABC = some [instrBobToAlice, instrCarolToAlice] := by decide

/-- Claim C7 (counterexample): one malformed record (`none`, a JS
`null` whose property access throws) among well-formed expenses makes
`calculateBalances` return the empty map — the whole aggregation is
aborted by the surrounding catch — instead of the balances of the
remaining well-formed expense. -/
theorem claim_C7_counterexample :
    calculateBalances [some expense90, none] membersABC = [] ∧
    calculateBalances [some expense90] membersABC =
      [("Alice", 90), ("Bob", -30), ("Carol", -30)] ∧
    (([] : ShareMap) = [("Alice", 90), ("Bob", -30), ("Carol", -30)] →
      False) := by decide

/-- Claim C7 (amended): a malformed (null) expense record anywhere in
the list aborts the whole aggregation: `calculateBalances` returns the
empty balance map, rather than skipping the record and aggregating the
rest. -/
theorem claim_C7_amended (expenses : List (Option Expense))
    (members : List Member) (h : none ∈ expenses) :
    calculateBalances expenses members = [] := by
  have key : ∀ (es : List (Option Expense)) (b : ShareMap), none ∈ es →
      es.foldlM
        (fun b oe =>
          match oe with
          | some e => Except.ok (applyExpense b e)
          | none => (Except.error () : Except Unit ShareMap)) b =
        Except.error () := by
    intro es
    induction es with
    | nil => intro b hb; simp at hb
    | cons oe rest ih =>
      intro b hb
      match oe with
      | none => rfl
      | some e =>
        have hrest : none ∈ rest := by
          rcases List.mem_cons.mp hb with h1 | h1
          · exact absurd h1.symm (by simp)
          · exact h1
        simp only [List.foldlM_cons]
        exact ih (applyExpense b e) hrest
  simp only [calculateBalances, calculateBalancesTry, bind, Except.bind,
    key expenses (initBalances members) h]

/-- Witness for the amended claim C7 at a concrete input. -/
theorem claim_C7_witness :
    calculateBalances [some expense90, none] membersABC = [] :=
  claim_C7_amended [some expense90, none] membersABC (by decide)

/-! ### Settlement sweep lemmas (claims C3, C4, C9) -/

/-- Total amount of a creditor/debtor list. -/
def amtSum : List Entry → ℚ
  | [] => 0
  | e :: rest => e.amount + amtSum rest

/-- Total amount of the entries of a given id in a creditor/debtor
list. -/
def entAmt : List Entry → String → ℚ
  | [], _ => 0
  | e :: rest, k => (if e.id = k then e.amount else 0) + entAmt rest k

/-- Total amount a given id receives in an instruction list. -/
def sumTo : List Instr → String → ℚ
  | [], _ => 0
  | i :: rest, k => (if i.toId = k then i.amount else 0) + sumTo rest k

/-- Total amount a given id pays in an instruction list. -/
def sumFrom : List Instr → String → ℚ
  | [], _ => 0
  | i :: rest, k => (if i.fromId = k then i.amount else 0) + sumFrom rest k

theorem amtSum_eq_zero (l : List Entry) (hpos : ∀ e ∈ l, 0 < e.amount)
    (h : amtSum l = 0) : l = [] := by
  cases l with
  | nil => rfl
  | cons e rest =>
    exfalso
    have h1 : 0 < e.amount := hpos e (by simp)
    have h2 : 0 ≤ amtSum rest := by
      clear h h1
      induction rest with
      | nil => simp [amtSum]
      | cons f rest2 ih =>
        have hf : 0 < f.amount := hpos f (by simp)
        have := ih (fun e he => hpos e (by simp at he ⊢; tauto))
        simp only [amtSum]
        linarith
    simp only [amtSum] at h
    linarith

theorem perm_orderedInsertB {α : Type} (le : α → α → Bool) (a : α)
    (l : List α) : (orderedInsertB le a l).Perm (a :: l) := by
  induction l with
  | nil => simp [orderedInsertB]
  | cons b rest ih =>
    simp only [orderedInsertB]
    by_cases h : le a b
    · simp [h]
    · simp only [h, Bool.false_eq_true, if_false]
      exact (List.Perm.cons b ih).trans (List.Perm.swap a b rest)

theorem perm_insertionSortB {α : Type} (le : α → α → Bool) (l : List α) :
    (insertionSortB le l).Perm l := by
  induction l with
  | nil => simp [insertionSortB]
  | cons a rest ih =>
    simp only [insertionSortB]
    exact (perm_orderedInsertB le a _).trans (List.Perm.cons a ih)

theorem sweepFuel_det :
    ∀ (f₁ f₂ : ℕ) (cs ds : List Entry) (r₁ r₂ : List Instr),
      sweepFuel f₁ cs ds = some r₁ → sweepFuel f₂ cs ds = some r₂ →
      r₁ = r₂ := by
  intro f₁
  induction f₁ with
  | zero =>
    intro f₂ cs ds r₁ r₂ h₁ h₂
    match cs, ds with
    | [], _ =>
      simp only [sweepFuel] at h₁ h₂
      rw [← Option.some_inj.mp h₁, ← Option.some_inj.mp h₂]
    | _ :: _, [] =>
      simp only [sweepFuel] at h₁ h₂
      rw [← Option.some_inj.mp h₁, ← Option.some_inj.mp h₂]
    | _ :: _, _ :: _ => exact absurd h₁ (by simp [sweepFuel])
  | succ f ih =>
    intro f₂ cs ds r₁ r₂ h₁ h₂
    match cs, ds with
    | [], _ =>
      simp only [sweepFuel] at h₁ h₂
      rw [← Option.some_inj.mp h₁, ← Option.some_inj.mp h₂]
    | _ :: _, [] =>
      simp only [sweepFuel] at h₁ h₂
      rw [← Option.some_inj.mp h₁, ← Option.some_inj.mp h₂]
    | c :: cs', d :: ds' =>
      match f₂ with
      | 0 => exact absurd h₂ (by simp [sweepFuel])
      | f₂' + 1 =>
        simp only [sweepFuel] at h₁ h₂
        by_cases hmin : min c.amount d.amount > 1/100
        · rw [if_pos hmin] at h₁ h₂
          rw [Option.map_eq_some'] at h₁ h₂
          obtain ⟨rest₁, hr₁, hout₁⟩ := h₁
          obtain ⟨rest₂, hr₂, hout₂⟩ := h₂
          rw [← hout₁, ← hout₂, ih f₂' _ _ rest₁ rest₂ hr₁ hr₂]
        · rw [if_neg hmin] at h₁ h₂
          exact ih f₂' _ _ r₁ r₂ h₁ h₂

/-- The sweep makes no progress at all when the smaller of the current
creditor and debtor remainders is exactly 0.01: the settle amount is
not `> 0.01` (no instruction, no decrement) and neither remainder is
`< 0.01` (no pointer advances), so the loop repeats the same state
forever. -/
theorem sweepFuel_stuck :
    ∀ (f : ℕ) (c d : Entry) (cs ds : List Entry),
      min c.amount d.amount = 1/100 →
      sweepFuel f (c :: cs) (d :: ds) = none := by
  intro f
  induction f with
  | zero => intro c d cs ds _; rfl
  | succ f ih =>
    intro c d cs ds hmin
    simp only [sweepFuel]
    rw [if_neg (by rw [hmin]; norm_num)]
    have hc : ¬(c.amount < 1/100) := by
      have := min_le_left c.amount d.amount
      rw [hmin] at this
      linarith
    have hd : ¬(d.amount < 1/100) := by
      have := min_le_right c.amount d.amount
      rw [hmin] at this
      linarith
    rw [if_neg hc, if_neg hd]
    exact ih c d cs ds hmin

/-- Balances exposing the boundary slip of the sweep: Alice is owed
2.01, Bob and Carol each owe 2.00 (all exact cent values, as produced
by the 2-decimal rounding of `calculateBalances`). -/
def balancesStuck : ShareMap := [("Alice", 201/100), ("Bob", -2), ("Carol", -2)]

/-- Claim C4 (violation witness): `calculateSettlements` does not
terminate on `balancesStuck`.  After settling Bob → Alice 2.00 the
creditor remainder is exactly 0.01 while debtor Carol still owes 2.00;
`settleAmount = 0.01` fails the `> 0.01` emission guard and neither
remainder passes the `< 0.01` advancement guard, so the loop state
repeats forever: for every fuel bound the loop is still running. -/
theorem claim_C4_nontermination :
    ∀ fuel : ℕ,
      calculateSettlementsFuel fuel balancesStuck membersABC = none := by
  intro fuel
  match fuel with
  | 0 => rfl
  | f + 1 =>
    have h1 : calculateSettlementsFuel (f + 1) balancesStuck membersABC =
        (sweepFuel f
          [{ id := "Alice", name := "Alice", avatar := "A",
             color := "#3B82F6", amount := 1/100 }]
          [{ id := "Carol", name := "Carol", avatar := "C",
             color := "#3B82F6", amount := 2 }]).map
          (fun rest =>
            mkInstr
              { id := "Bob", name := "Bob", avatar := "B",
                color := "#3B82F6", amount := 0 }
              { id := "Alice", name := "Alice", avatar := "A",
                color := "#3B82F6", amount := 201/100 } 2 :: rest) := rfl
    rw [h1, sweepFuel_stuck f _ _ _ _ (by norm_num)]
    rfl

theorem sweep_sums :
    ∀ (fuel : ℕ) (cs ds : List Entry) (out : List Instr),
      (∀ e ∈ cs, centQ e.amount ∧ 0 < e.amount) →
      (∀ e ∈ ds, centQ e.amount ∧ 0 < e.amount) →
      amtSum cs = amtSum ds →
      sweepFuel fuel cs ds = some out →
      ∀ k, sumTo out k = entAmt cs k ∧ sumFrom out k = entAmt ds k := by
  intro fuel
  induction fuel with
  | zero =>
    intro cs ds out hcs hds hsum h k
    match cs, ds with
    | [], ds =>
      obtain rfl : ([] : List Instr) = out := Option.some_inj.mp h
      have hds0 : ds = [] := amtSum_eq_zero ds (fun e he => (hds e he).2)
        (by simpa [amtSum] using hsum.symm)
      subst hds0
      simp [sumTo, sumFrom, entAmt]
    | c :: cs', [] =>
      exfalso
      have h0 : amtSum (c :: cs') = 0 := by simpa [amtSum] using hsum
      have := amtSum_eq_zero _ (fun e he => (hcs e he).2) h0
      simp at this
    | _ :: _, _ :: _ => exact absurd h (by simp [sweepFuel])
  | succ f ih =>
    intro cs ds out hcs hds hsum h k
    match cs, ds with
    | [], ds =>
      obtain rfl : ([] : List Instr) = out := Option.some_inj.mp h
      have hds0 : ds = [] := amtSum_eq_zero ds (fun e he => (hds e he).2)
        (by simpa [amtSum] using hsum.symm)
      subst hds0
      simp [sumTo, sumFrom, entAmt]
    | c :: cs', [] =>
      exfalso
      have h0 : amtSum (c :: cs') = 0 := by simpa [amtSum] using hsum
      have := amtSum_eq_zero _ (fun e he => (hcs e he).2) h0
      simp at this
    | c :: cs', d :: ds' =>
      have hcC := hcs c (by simp)
      have hdC := hds d (by simp)
      have hcsT : ∀ e ∈ cs', centQ e.amount ∧ 0 < e.amount :=
        fun e he => hcs e (by simp [he])
      have hdsT : ∀ e ∈ ds', centQ e.amount ∧ 0 < e.amount :=
        fun e he => hds e (by simp [he])
      have hminc : centQ (min c.amount d.amount) := centQ_min _ _ hcC.1 hdC.1
      have hminp : 0 < min c.amount d.amount := lt_min hcC.2 hdC.2
      have hmin100 : 1/100 ≤ min c.amount d.amount := centQ_pos_ge _ hminc hminp
      simp only [sweepFuel] at h
      by_cases hgt : min c.amount d.amount > 1/100
      · rw [if_pos hgt] at h
        rw [Option.map_eq_some'] at h
        obtain ⟨rest, hrest, hout⟩ := h
        subst hout
        have hsettle : round2 (min c.amount d.amount) = min c.amount d.amount :=
          round2_eq_self _ hminc
        rcases lt_trichotomy c.amount d.amount with hlt | heq2 | hgt2
        · -- creditor is smaller: creditor advances, debtor keeps remainder
          have hminl : min c.amount d.amount = c.amount := min_eq_left hlt.le
          have hcA : c.amount - min c.amount d.amount < 1/100 := by
            rw [hminl]; norm_num
          have hdA : ¬(d.amount - min c.amount d.amount < 1/100) := by
            rw [hminl]
            have hpos : 0 < d.amount - c.amount := by linarith
            have := centQ_pos_ge _ (centQ_sub _ _ hdC.1 hcC.1) hpos
            linarith
          rw [if_pos hcA, if_neg hdA] at hrest
          have hds2 :
              ∀ e ∈ ({ d with amount := d.amount - min c.amount d.amount } ::
                ds'), centQ e.amount ∧ 0 < e.amount := by
            intro e he
            rcases List.mem_cons.mp he with h1 | h1
            · subst h1
              refine ⟨centQ_sub _ _ hdC.1 hminc, ?_⟩
              show 0 < d.amount - min c.amount d.amount
              rw [hminl]
              linarith
            · exact hdsT e h1
          have hsum' : amtSum cs' =
              amtSum ({ d with amount := d.amount - min c.amount d.amount } ::
                ds') := by
            simp only [amtSum] at hsum ⊢
            rw [hminl]
            linarith
          obtain ⟨hTo, hFrom⟩ := ih cs'
            ({ d with amount := d.amount - min c.amount d.amount } :: ds') rest
            hcsT hds2 hsum' hrest k
          have hFrom2 : sumFrom rest k =
              (if d.id = k then d.amount - min c.amount d.amount else 0) +
                entAmt ds' k := by
            simpa [entAmt] using hFrom
          constructor
          · simp only [sumTo, entAmt, mkInstr]
            rw [hTo, hsettle, hminl]
          · simp only [sumFrom, entAmt, mkInstr]
            rw [hFrom2, hsettle]
            by_cases hk : d.id = k <;> simp [hk] <;> ring
        · -- equal amounts: both advance
          have hminl : min c.amount d.amount = c.amount := by
            rw [heq2]; simp
          have hcA : c.amount - min c.amount d.amount < 1/100 := by
            rw [hminl]; norm_num
          have hdA : d.amount - min c.amount d.amount < 1/100 := by
            rw [hminl, ← heq2]; norm_num
          rw [if_pos hcA, if_pos hdA] at hrest
          have hsum' : amtSum cs' = amtSum ds' := by
            simp only [amtSum] at hsum
            rw [heq2] at hsum
            linarith
          obtain ⟨hTo, hFrom⟩ := ih cs' ds' rest hcsT hdsT hsum' hrest k
          constructor
          · simp only [sumTo, entAmt, mkInstr]
            rw [hTo, hsettle, hminl]
          · simp only [sumFrom, entAmt, mkInstr]
            rw [hFrom, hsettle, hminl, heq2]
        · -- debtor is smaller: debtor advances, creditor keeps remainder
          have hminl : min c.amount d.amount = d.amount := min_eq_right hgt2.le
          have hdA : d.amount - min c.amount d.amount < 1/100 := by
            rw [hminl]; norm_num
          have hcA : ¬(c.amount - min c.amount d.amount < 1/100) := by
            rw [hminl]
            have hpos : 0 < c.amount - d.amount := by linarith
            have := centQ_pos_ge _ (centQ_sub _ _ hcC.1 hdC.1) hpos
            linarith
          rw [if_neg hcA, if_pos hdA] at hrest
          have hcs2 :
              ∀ e ∈ ({ c with amount := c.amount - min c.amount d.amount } ::
                cs'), centQ e.amount ∧ 0 < e.amount := by
            intro e he
            rcases List.mem_cons.mp he with h1 | h1
            · subst h1
              refine ⟨centQ_sub _ _ hcC.1 hminc, ?_⟩
              show 0 < c.amount - min c.amount d.amount
              rw [hminl]
              linarith
            · exact hcsT e h1
          have hsum' :
              amtSum ({ c with amount := c.amount - min c.amount d.amount } ::
                cs') = amtSum ds' := by
            simp only [amtSum] at hsum ⊢
            rw [hminl]
            linarith
          obtain ⟨hTo, hFrom⟩ := ih
            ({ c with amount := c.amount - min c.amount d.amount } :: cs') ds'
            rest hcs2 hdsT hsum' hrest k
          have hTo2 : sumTo rest k =
              (if c.id = k then c.amount - min c.amount d.amount else 0) +
                entAmt cs' k := by
            simpa [entAmt] using hTo
          constructor
          · simp only [sumTo, entAmt, mkInstr]
            rw [hTo2, hsettle]
            by_cases hk : c.id = k <;> simp [hk] <;> ring
          · simp only [sumFrom, entAmt, mkInstr]
            rw [hFrom, hsettle, hminl]
      · -- settle amount is exactly 0.01: state repeats, recurse on fuel
        have heq : min c.amount d.amount = 1/100 :=
          le_antisymm (not_lt.mp hgt) hmin100
        rw [if_neg hgt] at h
        have hc : ¬(c.amount < 1/100) := by
          have := min_le_left c.amount d.amount
          rw [heq] at this
          linarith
        have hd : ¬(d.amount < 1/100) := by
          have := min_le_right c.amount d.amount
          rw [heq] at this
          linarith
        rw [if_neg hc, if_neg hd] at h
        exact ih (c :: cs') (d :: ds') out hcs hds hsum h k

theorem centQ_neg (q : ℚ) (h : centQ q) : centQ (-q) := by
  obtain ⟨n, rfl⟩ := h
  exact ⟨-n, by push_cast; ring⟩

theorem entAmt_eq_map_sum (l : List Entry) (k : String) :
    entAmt l k = (l.map (fun e => if e.id = k then e.amount else 0)).sum := by
  induction l with
  | nil => rfl
  | cons e rest ih => simp [entAmt, ih]

theorem entAmt_perm (l₁ l₂ : List Entry) (h : l₁.Perm l₂) (k : String) :
    entAmt l₁ k = entAmt l₂ k := by
  rw [entAmt_eq_map_sum, entAmt_eq_map_sum]
  exact (h.map _).sum_eq

theorem amtSum_eq_map_sum (l : List Entry) :
    amtSum l = (l.map (·.amount)).sum := by
  induction l with
  | nil => rfl
  | cons e rest ih => simp [amtSum, ih]

theorem amtSum_perm (l₁ l₂ : List Entry) (h : l₁.Perm l₂) :
    amtSum l₁ = amtSum l₂ := by
  rw [amtSum_eq_map_sum, amtSum_eq_map_sum]
  exact (h.map _).sum_eq

theorem mkEntry_id (m : Member) (a : ℚ) : (mkEntry m a).id = m.id := rfl

theorem mkEntry_amount (m : Member) (a : ℚ) : (mkEntry m a).amount = a := rfl

theorem creditorsOf_cons_pos (balances : ShareMap) (m : Member)
    (rest : List Member) (h : mapGetD balances m.id 0 > 1/100) :
    creditorsOf balances (m :: rest) =
      mkEntry m (mapGetD balances m.id 0) :: creditorsOf balances rest := by
  simp only [creditorsOf, List.filterMap_cons, if_pos h]

theorem creditorsOf_cons_neg (balances : ShareMap) (m : Member)
    (rest : List Member) (h : ¬(mapGetD balances m.id 0 > 1/100)) :
    creditorsOf balances (m :: rest) = creditorsOf balances rest := by
  simp only [creditorsOf, List.filterMap_cons, if_neg h]

theorem debtorsOf_cons_pos (balances : ShareMap) (m : Member)
    (rest : List Member) (h : mapGetD balances m.id 0 < -(1/100)) :
    debtorsOf balances (m :: rest) =
      mkEntry m (-(mapGetD balances m.id 0)) :: debtorsOf balances rest := by
  simp only [debtorsOf, List.filterMap_cons, if_pos h]

theorem debtorsOf_cons_neg (balances : ShareMap) (m : Member)
    (rest : List Member) (h : ¬(mapGetD balances m.id 0 < -(1/100))) :
    debtorsOf balances (m :: rest) = debtorsOf balances rest := by
  simp only [debtorsOf, List.filterMap_cons, if_neg h]

theorem amtSum_creditorsOf (balances : ShareMap) (ms : List Member) :
    amtSum (creditorsOf balances ms) =
      (ms.map (fun m => if mapGetD balances m.id 0 > 1/100
        then mapGetD balances m.id 0 else 0)).sum := by
  induction ms with
  | nil => rfl
  | cons m rest ih =>
    by_cases h : mapGetD balances m.id 0 > 1/100
    · rw [creditorsOf_cons_pos balances m rest h]
      simp only [amtSum, mkEntry_amount, List.map_cons, List.sum_cons,
        if_pos h, ih]
    · rw [creditorsOf_cons_neg balances m rest h]
      simp only [List.map_cons, List.sum_cons, if_neg h, ih]
      ring

theorem amtSum_debtorsOf (balances : ShareMap) (ms : List Member) :
    amtSum (debtorsOf balances ms) =
      (ms.map (fun m => if mapGetD balances m.id 0 < -(1/100)
        then -(mapGetD balances m.id 0) else 0)).sum := by
  induction ms with
  | nil => rfl
  | cons m rest ih =>
    by_cases h : mapGetD balances m.id 0 < -(1/100)
    · rw [debtorsOf_cons_pos balances m rest h]
      simp only [amtSum, mkEntry_amount, List.map_cons, List.sum_cons,
        if_pos h, ih]
    · rw [debtorsOf_cons_neg balances m rest h]
      simp only [List.map_cons, List.sum_cons, if_neg h, ih]
      ring

theorem mem_creditorsOf (balances : ShareMap) (ms : List Member) (e : Entry)
    (he : e ∈ creditorsOf balances ms) :
    ∃ m ∈ ms, mapGetD balances m.id 0 > 1/100 ∧
      e = mkEntry m (mapGetD balances m.id 0) := by
  simp only [creditorsOf, List.mem_filterMap] at he
  obtain ⟨m, hm, hsome⟩ := he
  by_cases h : mapGetD balances m.id 0 > 1/100
  · rw [if_pos h] at hsome
    exact ⟨m, hm, h, (Option.some_inj.mp hsome).symm⟩
  · rw [if_neg h] at hsome
    exact absurd hsome (by simp)

theorem mem_debtorsOf (balances : ShareMap) (ms : List Member) (e : Entry)
    (he : e ∈ debtorsOf balances ms) :
    ∃ m ∈ ms, mapGetD balances m.id 0 < -(1/100) ∧
      e = mkEntry m (-(mapGetD balances m.id 0)) := by
  simp only [debtorsOf, List.mem_filterMap] at he
  obtain ⟨m, hm, hsome⟩ := he
  by_cases h : mapGetD balances m.id 0 < -(1/100)
  · rw [if_pos h] at hsome
    exact ⟨m, hm, h, (Option.some_inj.mp hsome).symm⟩
  · rw [if_neg h] at hsome
    exact absurd hsome (by simp)

theorem entAmt_creditorsOf_zero (balances : ShareMap) (ms : List Member)
    (k : String) (h : ∀ m ∈ ms, m.id ≠ k) :
    entAmt (creditorsOf balances ms) k = 0 := by
  induction ms with
  | nil => rfl
  | cons m rest ih =>
    have hm := h m (List.mem_cons_self m rest)
    have hrest : ∀ m' ∈ rest, m'.id ≠ k :=
      fun m' hm' => h m' (List.mem_cons_of_mem m hm')
    by_cases hc : mapGetD balances m.id 0 > 1/100
    · rw [creditorsOf_cons_pos balances m rest hc]
      simp only [entAmt, mkEntry_id, if_neg hm, ih hrest]
      ring
    · rw [creditorsOf_cons_neg balances m rest hc]
      exact ih hrest

theorem entAmt_debtorsOf_zero (balances : ShareMap) (ms : List Member)
    (k : String) (h : ∀ m ∈ ms, m.id ≠ k) :
    entAmt (debtorsOf balances ms) k = 0 := by
  induction ms with
  | nil => rfl
  | cons m rest ih =>
    have hm := h m (List.mem_cons_self m rest)
    have hrest : ∀ m' ∈ rest, m'.id ≠ k :=
      fun m' hm' => h m' (List.mem_cons_of_mem m hm')
    by_cases hc : mapGetD balances m.id 0 < -(1/100)
    · rw [debtorsOf_cons_pos balances m rest hc]
      simp only [entAmt, mkEntry_id, if_neg hm, ih hrest]
      ring
    · rw [debtorsOf_cons_neg balances m rest hc]
      exact ih hrest

theorem entAmt_creditorsOf (balances : ShareMap) (ms : List Member)
    (m : Member) (hm : m ∈ ms) (hids : (ms.map (·.id)).Nodup) :
    entAmt (creditorsOf balances ms) m.id =
      if mapGetD balances m.id 0 > 1/100 then mapGetD balances m.id 0
      else 0 := by
  induction ms with
  | nil => simp at hm
  | cons m0 rest ih =>
    simp only [List.map_cons, List.nodup_cons] at hids
    rcases List.mem_cons.mp hm with h1 | h1
    · subst h1
      have hz : entAmt (creditorsOf balances rest) m.id = 0 :=
        entAmt_creditorsOf_zero balances rest m.id
          (by
            intro m' hm' heq
            exact hids.1 (heq ▸ List.mem_map_of_mem (·.id) hm'))
      by_cases hc : mapGetD balances m.id 0 > 1/100
      · rw [creditorsOf_cons_pos balances m rest hc]
        simp only [entAmt, mkEntry_id, mkEntry_amount, if_pos rfl, hz,
          if_pos hc]
        simp
      · rw [creditorsOf_cons_neg balances m rest hc, if_neg hc]
        exact hz
    · have hne : m0.id ≠ m.id := by
        intro heq
        exact hids.1 (heq ▸ List.mem_map_of_mem (·.id) h1)
      by_cases hc : mapGetD balances m0.id 0 > 1/100
      · rw [creditorsOf_cons_pos balances m0 rest hc]
        simp only [entAmt, mkEntry_id, if_neg hne, ih h1 hids.2]
        ring
      · rw [creditorsOf_cons_neg balances m0 rest hc]
        exact ih h1 hids.2

theorem entAmt_debtorsOf (balances : ShareMap) (ms : List Member)
    (m : Member) (hm : m ∈ ms) (hids : (ms.map (·.id)).Nodup) :
    entAmt (debtorsOf balances ms) m.id =
      if mapGetD balances m.id 0 < -(1/100) then -(mapGetD balances m.id 0)
      else 0 := by
  induction ms with
  | nil => simp at hm
  | cons m0 rest ih =>
    simp only [List.map_cons, List.nodup_cons] at hids
    rcases List.mem_cons.mp hm with h1 | h1
    · subst h1
      have hz : entAmt (debtorsOf balances rest) m.id = 0 :=
        entAmt_debtorsOf_zero balances rest m.id
          (by
            intro m' hm' heq
            exact hids.1 (heq ▸ List.mem_map_of_mem (·.id) hm'))
      by_cases hc : mapGetD balances m.id 0 < -(1/100)
      · rw [debtorsOf_cons_pos balances m rest hc]
        simp only [entAmt, mkEntry_id, mkEntry_amount, if_pos rfl, hz,
          if_pos hc]
        simp
      · rw [debtorsOf_cons_neg balances m rest hc, if_neg hc]
        exact hz
    · have hne : m0.id ≠ m.id := by
        intro heq
        exact hids.1 (heq ▸ List.mem_map_of_mem (·.id) h1)
      by_cases hc : mapGetD balances m0.id 0 < -(1/100)
      · rw [debtorsOf_cons_pos balances m0 rest hc]
        simp only [entAmt, mkEntry_id, if_neg hne, ih h1 hids.2]
        ring
      · rw [debtorsOf_cons_neg balances m0 rest hc]
        exact ih h1 hids.2

/-- Claim C3 (counterexample): for the balance map {Alice: 100} over
the single member Alice, `calculateSettlements` (which terminates
immediately: there are no debtors) emits no instruction at all, so
applying the emitted instructions leaves Alice's balance at 100,
nowhere near zero — the claim fails for balance maps that do not sum
to ≈ 0. -/
theorem claim_C3_counterexample :
    calculateSettlementsFuel 1 [("Alice", 100)]
        [{ id := "Alice", name := "Alice" }] = some [] ∧
    ¬(|mapGetD [("Alice", 100)] "Alice" 0 +
        sumFrom [] "Alice" - sumTo [] "Alice"| ≤ 1/100) := by decide

/-- Claim C3 (amended): whenever every balance is an exact cent value,
the balances sum to 0, no balance lies strictly between 0 and 0.01 in
absolute value, the member ids are duplicate-free, and the sweep
terminates (returns a result at some fuel), applying all emitted
instructions to the input balances (add what the member pays, subtract
what the member receives) leaves every member within 0.01 of zero.
Each of the added hypotheses is necessary: without the zero-sum a lone
creditor keeps its whole balance; tiny nonzero balances and non-cent
values let rounding residue accumulate on the last creditor; and a
remainder of exactly 0.01 makes the loop spin forever. -/
theorem claim_C3_amended (fuel : ℕ) (balances : ShareMap)
    (members : List Member) (out : List Instr)
    (hcent : ∀ m ∈ members, centQ (mapGetD balances m.id 0))
    (hzero : (members.map (fun m => mapGetD balances m.id 0)).sum = 0)
    (hgap : ∀ m ∈ members, mapGetD balances m.id 0 = 0 ∨
      1/100 < |mapGetD balances m.id 0|)
    (hids : (members.map (·.id)).Nodup)
    (hrun : calculateSettlementsFuel fuel balances members = some out) :
    ∀ m ∈ members,
      |mapGetD balances m.id 0 + sumFrom out m.id - sumTo out m.id| ≤
        1/100 := by
  intro m hm
  have hpermc : (sortByAmountDesc (creditorsOf balances members)).Perm
      (creditorsOf balances members) := perm_insertionSortB _ _
  have hpermd : (sortByAmountDesc (debtorsOf balances members)).Perm
      (debtorsOf balances members) := perm_insertionSortB _ _
  have hcsH : ∀ e ∈ sortByAmountDesc (creditorsOf balances members),
      centQ e.amount ∧ 0 < e.amount := by
    intro e he
    obtain ⟨m', hm', hb, rfl⟩ :=
      mem_creditorsOf balances members e (hpermc.mem_iff.mp he)
    rw [mkEntry_amount]
    exact ⟨hcent m' hm', by linarith⟩
  have hdsH : ∀ e ∈ sortByAmountDesc (debtorsOf balances members),
      centQ e.amount ∧ 0 < e.amount := by
    intro e he
    obtain ⟨m', hm', hb, rfl⟩ :=
      mem_debtorsOf balances members e (hpermd.mem_iff.mp he)
    rw [mkEntry_amount]
    exact ⟨centQ_neg _ (hcent m' hm'), by linarith⟩
  have hsum : amtSum (sortByAmountDesc (creditorsOf balances members)) =
      amtSum (sortByAmountDesc (debtorsOf balances members)) := by
    rw [amtSum_perm _ _ hpermc, amtSum_perm _ _ hpermd,
      amtSum_creditorsOf, amtSum_debtorsOf]
    have key : ∀ ms : List Member,
        (∀ m' ∈ ms, mapGetD balances m'.id 0 = 0 ∨
          1/100 < |mapGetD balances m'.id 0|) →
        (ms.map (fun m' => if mapGetD balances m'.id 0 > 1/100
          then mapGetD balances m'.id 0 else 0)).sum =
        (ms.map (fun m' => mapGetD balances m'.id 0)).sum +
        (ms.map (fun m' => if mapGetD balances m'.id 0 < -(1/100)
          then -(mapGetD balances m'.id 0) else 0)).sum := by
      intro ms
      induction ms with
      | nil => intro _; simp
      | cons m0 rest ih =>
        intro hms
        simp only [List.map_cons, List.sum_cons]
        have hpoint :
            (if mapGetD balances m0.id 0 > 1/100
              then mapGetD balances m0.id 0 else 0) =
            mapGetD balances m0.id 0 +
            (if mapGetD balances m0.id 0 < -(1/100)
              then -(mapGetD balances m0.id 0) else 0) := by
          rcases hms m0 (List.mem_cons_self m0 rest) with h0 | h0
          · rw [h0]
            norm_num
          · rcases lt_abs.mp h0 with hb | hb
            · rw [if_pos hb, if_neg (by linarith)]
              ring
            · rw [if_neg (by linarith), if_pos (by linarith)]
              ring
        rw [hpoint, ih (fun m' hm' => hms m' (List.mem_cons_of_mem m0 hm'))]
        ring
    rw [key members hgap, hzero]
    ring
  obtain ⟨hTo, hFrom⟩ := sweep_sums fuel _ _ out hcsH hdsH hsum hrun m.id
  rw [entAmt_perm _ _ hpermc, entAmt_creditorsOf balances members m hm hids]
    at hTo
  rw [entAmt_perm _ _ hpermd, entAmt_debtorsOf balances members m hm hids]
    at hFrom
  rw [hTo, hFrom]
  rcases hgap m hm with h0 | h0
  · rw [h0]
    norm_num
  · rcases lt_abs.mp h0 with hb | hb
    · rw [if_neg (by linarith), if_pos hb]
      simp
    · rw [if_pos (by linarith), if_neg (by linarith)]
      simp

/-- Witness for the amended claim C3: balances Alice +5, Bob −5; the
sweep terminates with the single instruction Bob → Alice 5, which
drives both balances to exactly 0. -/
theorem claim_C3_witness :
    |mapGetD [("Alice", 5), ("Bob", -5)] "Alice" 0 +
      sumFrom [mkInstr (mkEntry { id := "Bob", name := "Bob" } 5)
        (mkEntry { id := "Alice", name := "Alice" } 5) 5] "Alice" -
      sumTo [mkInstr (mkEntry { id := "Bob", name := "Bob" } 5)
        (mkEntry { id := "Alice", name := "Alice" } 5) 5] "Alice"| ≤
      1/100 := by
  have h := claim_C3_amended 2 [("Alice", 5), ("Bob", -5)]
    [{ id := "Alice", name := "Alice" }, { id := "Bob", name := "Bob" }]
    [mkInstr (mkEntry { id := "Bob", name := "Bob" } 5)
      (mkEntry { id := "Alice", name := "Alice" } 5) 5]
    (by
      intro m hm
      rcases List.mem_cons.mp hm with h1 | h1
      · subst h1; exact ⟨500, by decide⟩
      · rcases List.mem_cons.mp h1 with h2 | h2
        · subst h2; exact ⟨-500, by decide⟩
        · simp at h2)
    (by decide) 
    (by
      intro m hm
      rcases List.mem_cons.mp hm with h1 | h1
      · subst h1
        right
        decide
      · rcases List.mem_cons.mp h1 with h2 | h2
        · subst h2
          right
          decide
        · simp at h2)
    (by decide) (by decide)
  exact h { id := "Alice", name := "Alice" } (by decide)

/-- Claim C9: the settlement planner is deterministic — any two
terminating runs on the same balance map and member list (regardless
of the fuel bound, which is only a modelling artifact of the `while`
loop) produce exactly the same instruction list.  In the embedding the
planner is a pure function of its inputs, which also captures that the
input balance map is never mutated. -/
theorem claim_C9_deterministic (f₁ f₂ : ℕ) (balances : ShareMap)
    (members : List Member) (r₁ r₂ : List Instr)
    (h₁ : calculateSettlementsFuel f₁ balances members = some r₁)
    (h₂ : calculateSettlementsFuel f₂ balances members = some r₂) :
    r₁ = r₂ :=
  sweepFuel_det f₁ f₂ _ _ r₁ r₂ h₁ h₂

/-- Witness for claim C9: two runs of the planner on the Scenario-1
balances (with different fuel bounds) both yield Bob → Alice 30,
Carol → Alice 30. -/
theorem claim_C9_witness :
    ([instrBobToAlice, instrCarolToAlice] : List Instr) =
      [instrBobToAlice, instrCarolToAlice] :=
  claim_C9_deterministic 4 7
    (calculateBalances [some expense90] membersABC) membersABC
    [instrBobToAlice, instrCarolToAlice] [instrBobToAlice, instrCarolToAlice]
    (by decide) (by decide)

/-- A store with one member, no expenses, and one absence record for
that member. -/
def absenceAlice : AbsenceRecord :=
  { id := "r1", memberId := "Alice", startDate := 5, endDate := some 6,
    reason := "away" }

def storeAbsenceOnly : Store :=
  { members := [{ id := "Alice", name := "Alice" }],
    expenses := [],
    presence := [absenceAlice] }

/-- Claim C6 (counterexample): deleting a member who is referenced by
an absence record (but by no expense) succeeds — the absence record is
silently removed together with the member — whereas the claim says the
deletion must fail with a referential-integrity error and leave the
store unchanged. -/
theorem claim_C6_counterexample :
    deleteMember storeAbsenceOnly "Alice" =
      Except.ok { members := [], expenses := [], presence := [] } ∧
    ({ members := [], expenses := [], presence := [] } : Store) ≠
      storeAbsenceOnly := by decide

/-- Claim C6 (amended): `deleteMember` fails (with the
existing-expenses error, leaving the store unchanged) precisely when
some expense references the member as payer or participant; absence
records referencing the member do NOT block deletion — on success they
are removed along with the member. -/
theorem claim_C6_amended (s : Store) (memberId : String)
    (h : ∃ me ∈ s.expenses, ∃ e ∈ me.2,
      e.paidBy = memberId ∨ memberId ∈ e.splitBetween) :
    deleteMember s memberId =
      Except.error "Cannot delete member with existing expenses" := by
  obtain ⟨me, hme, e, he, href⟩ := h
  have hhas : s.expenses.any (fun monthExpenses =>
      monthExpenses.2.any (fun expense =>
        expense.paidBy == memberId ||
        expense.splitBetween.contains memberId)) = true := by
    rw [List.any_eq_true]
    refine ⟨me, hme, ?_⟩
    rw [List.any_eq_true]
    refine ⟨e, he, ?_⟩
    rcases href with h1 | h1
    · simp [h1]
    · simp [h1, List.elem_eq_mem, List.contains]
  simp only [deleteMember, hhas, if_true]

/-- A store in which Alice paid the Scenario-1 expense. -/
def storeWithExpense : Store :=
  { members := membersABC,
    expenses := [("2024-01", [expense90])],
    presence := [] }

/-- Witness for the amended claim C6: Alice paid an expense, so
deleting her is rejected. -/
theorem claim_C6_witness :
    deleteMember storeWithExpense "Alice" =
      Except.error "Cannot delete member with existing expenses" :=
  claim_C6_amended storeWithExpense "Alice"
    ⟨("2024-01", [expense90]), by decide, expense90, by decide,
      Or.inl rfl⟩

/-! ### Trend growth lemmas (claim C8) -/

theorem addGrowth_get :
    ∀ (rest : List Trend) (prev : Trend) (i : ℕ) (tp tc : Trend),
      (prev :: addGrowth prev rest).get? i = some tp →
      (prev :: addGrowth prev rest).get? (i + 1) = some tc →
      tc.growth = some (growthVal tp.total tc.total) := by
  intro rest
  induction rest with
  | nil =>
    intro prev i tp tc h1 h2
    simp [addGrowth] at h2
  | cons r rest' ih =>
    intro prev i tp tc h1 h2
    match i with
    | 0 =>
      simp only [addGrowth, List.get?_cons_zero, List.get?_cons_succ] at h1 h2
      obtain rfl := Option.some_inj.mp h1
      obtain rfl := Option.some_inj.mp h2
      rfl
    | i + 1 =>
      simp only [addGrowth, List.get?_cons_succ] at h1 h2
      exact ih { r with growth := some (growthVal prev.total r.total) }
        i tp tc h1 h2

theorem withGrowth_get (l : List Trend) (i : ℕ) (tp tc : Trend)
    (h1 : (withGrowth l).get? i = some tp)
    (h2 : (withGrowth l).get? (i + 1) = some tc) :
    tc.growth = some (growthVal tp.total tc.total) := by
  match l with
  | [] => simp [withGrowth] at h1
  | t :: rest =>
    simp only [withGrowth] at h1 h2
    exact addGrowth_get rest t i tp tc h1 h2

/-- Claim C8 (amended): in the output of `calculateTrends`, every
month bucket after the first carries a growth value computed from the
previous bucket's total by `growthVal`: the rounded percentage formula
when the previous total is positive, otherwise 100 when the current
total is positive and 0 only when both are 0 — not 0 whenever the
previous total is 0, as claimed. -/
theorem claim_C8_amended (expensesByMonth : List (String × List Expense))
    (i : ℕ) (tp tc : Trend)
    (h1 : (calculateTrends expensesByMonth).get? i = some tp)
    (h2 : (calculateTrends expensesByMonth).get? (i + 1) = some tc) :
    tc.growth = some (growthVal tp.total tc.total) := by
  simp only [calculateTrends] at h1 h2
  exact withGrowth_get _ i tp tc h1 h2

/-- A January bucket containing a single zero-amount expense. -/
def monthJanZero : String × List Expense :=
  ("2024-01", [{ amount := 0, paidBy := "Alice" }])

/-- A February bucket containing a single expense of 50. -/
def monthFeb50 : String × List Expense :=
  ("2024-02", [{ amount := 50, paidBy := "Alice" }])

/-- Claim C8 (counterexample): with January total 0 and February total
50, `calculateTrends` assigns February growth 100, but the claim says
the growth must be 0 whenever the previous month's total is 0. -/
theorem claim_C8_counterexample :
    (calculateTrends [monthJanZero, monthFeb50]).map
        (fun t => (t.total, t.growth)) = [(0, none), (50, some 100)] ∧
    (some (100 : ℚ) = some (0 : ℚ) → False) := by decide

/-- Witness for the amended claim C8 at the concrete two-month
input. -/
theorem claim_C8_witness :
    ({ month := "2024-02", total := 50, count := 1, average := 50,
       growth := some 100 } : Trend).growth =
      some (growthVal
        ({ month := "2024-01", total := 0, count := 1, average := 0,
           growth := none } : Trend).total
        ({ month := "2024-02", total := 50, count := 1, average := 50,
           growth := some 100 } : Trend).total) :=
  claim_C8_amended [monthJanZero, monthFeb50] 0
    { month := "2024-01", total := 0, count := 1, average := 0,
      growth := none }
    { month := "2024-02", total := 50, count := 1, average := 50,
      growth := some 100 }
    (by decide) (by decide)

/-! ### Overlap check of savePresenceRecord (claim C10) -/

/-- Claim C10: `savePresenceRecord` rejects any record of a member that
date-overlaps ANY stored record of the same member — the overlap
filter does not exclude the record whose own id is being updated, so
in particular re-saving a stored record under its own id with its own
(or any overlapping) dates throws the overlapping-records error, and
`updateAbsence` (which merges the stored record with the updates and
calls `savePresenceRecord` with the same id) can never succeed for a
range overlapping the record's own stored range. -/
theorem claim_C10_self_overlap (freshId : String)
    (records : List AbsenceRecord) (input : PresenceInput)
    (r : AbsenceRecord) (hr : r ∈ records)
    (hmem : input.memberId = r.memberId)
    (h1 : ¬(input.endDate.getD input.startDate < r.startDate))
    (h2 : ¬(input.startDate > r.endDate.getD 0)) :
    savePresenceRecord freshId records input =
      Except.error "Overlapping absence records found" := by
  have hpred : (fun rec : AbsenceRecord =>
      rec.memberId == input.memberId &&
      !(decide ((some (input.endDate.getD input.startDate) :
          Option ℤ).getD 0 < rec.startDate) ||
        decide (input.startDate > rec.endDate.getD 0))) r = true := by
    simp only [Option.getD_some]
    rw [hmem]
    simp [h1, h2]
  have hmemf : r ∈ records.filter (fun rec =>
      rec.memberId == input.memberId &&
      !(decide ((some (input.endDate.getD input.startDate) :
          Option ℤ).getD 0 < rec.startDate) ||
        decide (input.startDate > rec.endDate.getD 0))) :=
    List.mem_filter.mpr ⟨hr, hpred⟩
  have hlen : 0 < (records.filter (fun rec =>
      rec.memberId == input.memberId &&
      !(decide ((some (input.endDate.getD input.startDate) :
          Option ℤ).getD 0 < rec.startDate) ||
        decide (input.startDate > rec.endDate.getD 0)))).length :=
    List.length_pos.mpr (List.ne_nil_of_mem hmemf)
  simp only [savePresenceRecord]
  rw [if_pos hlen]

/-- A stored absence record of Bob, days 10 to 12. -/
def recBob : AbsenceRecord :=
  { id := "r1", memberId := "Bob", startDate := 10, endDate := some 12,
    reason := "trip" }

/-- The `updateAbsence`-style input that re-saves `recBob` under its
own id with unchanged dates. -/
def inputBobSame : PresenceInput :=
  { id := some "r1", memberId := "Bob", startDate := 10,
    endDate := some 12, reason := "trip" }

/-- Witness for claim C10: updating Bob's record in place (same id,
same dates) is rejected with the overlapping-records error. -/
theorem claim_C10_witness :
    savePresenceRecord "fresh" [recBob] inputBobSame =
      Except.error "Overlapping absence records found" :=
  claim_C10_self_overlap "fresh" [recBob] inputBobSame recBob
    (by decide) rfl (by decide) (by decide)

/-! ### Absence filtering lemmas (claim C5) -/

theorem mem_getAbsentMembers (members : List Member)
    (records : List AbsenceRecord) (d : ℤ) (m : Member) (hm : m ∈ members)
    (r : AbsenceRecord) (hr : r ∈ records) (hrm : r.memberId = m.id)
    (h1 : r.startDate ≤ d) (h2 : d ≤ r.endDate.getD r.startDate) :
    m ∈ getAbsentMembers members records d := by
  simp only [getAbsentMembers]
  rw [List.mem_filter]
  refine ⟨hm, ?_⟩
  rw [List.any_eq_true]
  exact ⟨r, hr, by simp [hrm, h1, h2]⟩

theorem mapKeys_foldl_mapSet (l : List String) (g : ShareMap → String → ℚ) :
    ∀ (b : ShareMap) (x : String),
      x ∈ mapKeys (l.foldl (fun m k => mapSet m k (g m k)) b) →
      x ∈ mapKeys b ∨ x ∈ l := by
  induction l with
  | nil => intro b x hx; exact Or.inl hx
  | cons k0 rest ih =>
    intro b x hx
    simp only [List.foldl_cons] at hx
    rcases ih (mapSet b k0 (g b k0)) x hx with h | h
    · rcases mem_mapKeys_mapSet b k0 _ x h with h2 | h2
      · exact Or.inl h2
      · exact Or.inr (by simp [h2])
    · exact Or.inr (by simp [h])

theorem mem_keys_filter_absent (sd0 : ShareMap) (ids : List String)
    (x : String)
    (hx : x ∈ mapKeys (sd0.filter (fun p => !(ids.contains p.1)))) :
    x ∉ ids := by
  simp only [mapKeys, List.mem_map] at hx
  obtain ⟨p, hp, rfl⟩ := hx
  rw [List.mem_filter] at hp
  have h2 := hp.2
  simp only [List.contains, List.elem_eq_mem, Bool.not_eq_true',
    decide_eq_false_iff_not] at h2
  exact h2

theorem processAbsentMembers_keys (members : List Member)
    (records : List AbsenceRecord) (e : ExpenseData) (d : ℤ)
    (parts : List String) (hdate : e.date = some d)
    (hparts : e.splitBetween = some parts) (sd : ShareMap)
    (hsd : (processAbsentMembers members records e).splitDetails = some sd)
    (x : String) (hx : x ∈ mapKeys sd) :
    x ∈ mapKeys ((e.splitDetails.getD []).filter (fun p =>
      !(((getAbsentMembers members records d).map (·.id)).contains p.1))) ∨
    x ∈ presentAfterFilter members records d e.paidBy parts := by
  simp only [processAbsentMembers, hdate, hparts] at hsd
  by_cases hty : e.splitType = some "equal"
  · rw [if_pos hty] at hsd
    dsimp only at hsd
    rw [Option.some_inj] at hsd
    rw [← hsd] at hx
    rcases mapKeys_foldl_mapSet _ (fun _ _ =>
      if (presentAfterFilter members records d e.paidBy parts).length > 0
      then e.amount /
        ((presentAfterFilter members records d e.paidBy parts).length : ℚ)
      else 0) [] x hx with h | h
    · simp [mapKeys] at h
    · exact Or.inr h
  · rw [if_neg hty] at hsd
    cases hsd0 : e.splitDetails with
    | none =>
      rw [hsd0] at hsd
      dsimp only at hsd
      exact absurd hsd (by simp)
    | some sd0 =>
      rw [hsd0] at hsd
      dsimp only at hsd
      by_cases hc : e.splitType = some "custom"
      · rw [if_pos hc] at hsd
        by_cases hadj : |e.amount - ((sd0.filter (fun p =>
            !(((getAbsentMembers members records d).map (·.id)).contains
              p.1))).map (·.2)).sum| > 1/100 ∧
            0 < (presentAfterFilter members records d e.paidBy parts).length
        · rw [if_pos hadj] at hsd
          dsimp only at hsd
          rw [Option.some_inj] at hsd
          rw [← hsd] at hx
          rcases mapKeys_foldl_mapSet _ (fun m _ => mapGetD m _ 0 +
            (e.amount - ((sd0.filter (fun p =>
              !(((getAbsentMembers members records d).map (·.id)).contains
                p.1))).map (·.2)).sum) /
            ((presentAfterFilter members records d e.paidBy parts).length :
              ℚ)) _ x hx with h | h
          · exact Or.inl (by simpa using h)
          · exact Or.inr h
        · rw [if_neg hadj] at hsd
          dsimp only at hsd
          rw [Option.some_inj] at hsd
          rw [← hsd] at hx
          exact Or.inl (by simpa using hx)
      · rw [if_neg hc] at hsd
        by_cases hp2 : e.splitType = some "percentage"
        · rw [if_pos hp2] at hsd
          by_cases hadj : |100 - ((sd0.filter (fun p =>
              !(((getAbsentMembers members records d).map (·.id)).contains
                p.1))).map (·.2)).sum| > 1/10 ∧
              0 < (presentAfterFilter members records d e.paidBy parts).length
          · rw [if_pos hadj] at hsd
            dsimp only at hsd
            rw [Option.some_inj] at hsd
            rw [← hsd] at hx
            rcases mapKeys_foldl_mapSet _ (fun m _ => mapGetD m _ 0 +
              (100 - ((sd0.filter (fun p =>
                !(((getAbsentMembers members records d).map (·.id)).contains
                  p.1))).map (·.2)).sum) /
              ((presentAfterFilter members records d e.paidBy parts).length :
                ℚ)) _ x hx with h | h
            · exact Or.inl (by simpa using h)
            · exact Or.inr h
          · rw [if_neg hadj] at hsd
            dsimp only at hsd
            rw [Option.some_inj] at hsd
            rw [← hsd] at hx
            exact Or.inl (by simpa using hx)
        · rw [if_neg hp2] at hsd
          dsimp only at hsd
          rw [Option.some_inj] at hsd
          rw [← hsd] at hx
          exact Or.inl (by simpa using hx)

/-- Claim C5: a member of the member list who has an absence record
covering the expense date never appears in the resolved share map
written by `processAbsentMembers` — except in the payer-fallback case:
if they do appear, then filtering removed every intended participant
and that member is the designated payer (hence the sole surviving
participant). -/
theorem claim_C5_absent_excluded (members : List Member)
    (absenceRecords : List AbsenceRecord) (e : ExpenseData) (m : Member)
    (d : ℤ) (parts : List String) (r : AbsenceRecord) (sd : ShareMap)
    (hm : m ∈ members)
    (hdate : e.date = some d)
    (hparts : e.splitBetween = some parts)
    (hr : r ∈ absenceRecords) (hrm : r.memberId = m.id)
    (hcov1 : r.startDate ≤ d) (hcov2 : d ≤ r.endDate.getD r.startDate)
    (hsd : (processAbsentMembers members absenceRecords e).splitDetails =
      some sd)
    (hmem : m.id ∈ mapKeys sd) :
    parts.filter (fun memberId =>
      !(((getAbsentMembers members absenceRecords d).map (·.id)).contains
        memberId)) = [] ∧ e.paidBy = some m.id := by
  have habs : m ∈ getAbsentMembers members absenceRecords d :=
    mem_getAbsentMembers members absenceRecords d m hm r hr hrm hcov1 hcov2
  have habsid : m.id ∈ (getAbsentMembers members absenceRecords d).map (·.id) :=
    List.mem_map_of_mem _ habs
  rcases processAbsentMembers_keys members absenceRecords e d parts hdate
    hparts sd hsd m.id hmem with h | h
  · exact absurd habsid (mem_keys_filter_absent _ _ _ h)
  · simp only [presentAfterFilter] at h
    by_cases hlen : (parts.filter (fun memberId =>
        !(((getAbsentMembers members absenceRecords d).map (·.id)).contains
          memberId))).length = 0
    · rw [if_pos hlen] at h
      cases hpb : e.paidBy with
      | none =>
        rw [hpb] at h
        rw [List.length_eq_zero.mp hlen] at h
        simp at h
      | some p =>
        rw [hpb] at h
        simp only [List.mem_singleton] at h
        exact ⟨List.length_eq_zero.mp hlen, by rw [h]⟩
    · rw [if_neg hlen] at h
      rw [List.mem_filter] at h
      have h2 := h.2
      simp only [List.contains, List.elem_eq_mem, Bool.not_eq_true',
        decide_eq_false_iff_not] at h2
      exact absurd habsid h2

/-- Witness for claim C5 (payer-fallback case): Bob, absent on the
expense date, is the payer and the only intended participant; the
filtered participant list is empty, Bob alone survives, and his id is
in the resolved share map — exactly the permitted exception. -/
theorem claim_C5_witness :
    ([("Bob")] : List String).filter (fun memberId =>
      !(((getAbsentMembers [{ id := "Bob", name := "Bob" }]
          [{ id := "r1", memberId := "Bob", startDate := 5,
             endDate := some 9, reason := "trip" }] 7).map
        (·.id)).contains memberId)) = [] ∧
    (({ amount := 30, date := some 7, paidBy := some "Bob",
        splitType := some "equal", splitBetween := some ["Bob"] } :
      ExpenseData)).paidBy = some "Bob" :=
  claim_C5_absent_excluded [{ id := "Bob", name := "Bob" }]
    [{ id := "r1", memberId := "Bob", startDate := 5, endDate := some 9,
       reason := "trip" }]
    { amount := 30, date := some 7, paidBy := some "Bob",
      splitType := some "equal", splitBetween := some ["Bob"] }
    { id := "Bob", name := "Bob" } 7 ["Bob"]
    { id := "r1", memberId := "Bob", startDate := 5, endDate := some 9,
      reason := "trip" }
    [("Bob", 30)]
    (by decide) rfl rfl (by decide) rfl (by decide) (by decide)
    (by decide) (by decide)
